import Mathlib

/-!
Shallow embedding of the crash-recovery coordinator of RAMCloud, as described
by the repository specification, together with the keyed store used by masters
(exercised by `src/src/HashTableBenchmark.cc`).  The repository excerpt under
`src/` contains only the HashTable benchmark harness and the `RecoveryTest`
unit tests; the coordinator components themselves (ReplicaLocator,
LogCompletenessVerifier, PartitionPlanner, RecoveryCoordinator) and the
HashTable implementation are therefore modelled from the specification's
contracts, and the claims are settled against those models.
-/

namespace RAMCloud

/-- ServerId: opaque node identity, modelled as a natural number. -/
abbrev ServerId := Nat

/-- SegmentId: monotonically increasing identifier within one crashed node's
log; higher values are more recent. -/
abbrev SegmentId := Nat

/-- Modelled from the spec: `ReplicaPlacement` is one (backup, segment)
pairing tagged with whether the backup holds the primary replica. -/
structure ReplicaPlacement where
  backup : ServerId
  segmentId : SegmentId
  isPrimary : Bool
deriving DecidableEq, Repr

/-- Modelled from the spec: `SegmentDigest` is the metadata embedded in a
head segment, listing every segment that must exist for the log to be
complete. -/
structure SegmentDigest where
  segmentId : SegmentId
  segmentLength : Nat
  referencedSegmentIds : List SegmentId
deriving DecidableEq, Repr

/-- Modelled from the spec: a `Tablet` is a contiguous key range owned by the
crashed node, tagged with the recovery partition it belongs to. -/
structure Tablet where
  tableId : Nat
  keyRangeStart : Nat
  keyRangeEnd : Nat
  partitionTag : Nat
deriving DecidableEq, Repr

/-- Modelled from the spec: a `RecoveryPartition` is the set of tablets
sharing a partition tag plus the healthy node assigned to recover them. -/
structure RecoveryPartition where
  partitionTag : Nat
  node : ServerId
  tablets : List Tablet
deriving DecidableEq, Repr

/-- Modelled from the spec (§7): the fatal error taxonomy of the recovery
coordinator. -/
inductive RecoveryError where
  | NoUsableHead
  | InsufficientRecoveryCapacity
  | IncompleteLog
deriving DecidableEq, Repr

/-! ## ReplicaLocator (spec §4.1)

`locate` is modelled from the spec: the Recovery.cc implementation
(`buildSegmentIdToBackups`) is absent from `src/`; only its unit tests
(`RecoveryTest::buildSegmentIdToBackups*`) are present.  The contract: one
entry per discovered (backup, segment) pair; every primary-tagged entry
precedes every secondary-tagged entry; within each tier entries are ordered
by recency (higher segmentId first) with ties broken by a randomized
permutation of backups drawn once per Recovery from an injectable source
(`backupOrder` below). -/

/-- Rank of a backup in the injected random permutation of backups;
smaller rank means the backup is tried earlier. -/
def backupRank (backupOrder : List ServerId) (b : ServerId) : Nat :=
  backupOrder.indexOf b

/-- The within-tier ordering: higher segmentId (more recent) first; ties on
segmentId broken by the injected backup permutation. -/
def recencyThenRank (backupOrder : List ServerId) (a b : ReplicaPlacement) : Prop :=
  b.segmentId < a.segmentId ∨
    (a.segmentId = b.segmentId ∧
      backupRank backupOrder a.backup ≤ backupRank backupOrder b.backup)

instance (backupOrder : List ServerId) :
    DecidableRel (recencyThenRank backupOrder) := by
  intro a b
  unfold recencyThenRank
  infer_instance

/-- Modelled from the spec: `ReplicaLocator.locate`.  Sorts the primary-tagged
placements and the secondary-tagged placements each by
recency-then-injected-rank and returns primaries followed by secondaries. -/
def locate (placements : List ReplicaPlacement)
    (backupOrder : List ServerId) : List ReplicaPlacement :=
  (placements.filter (fun p => p.isPrimary)).insertionSort
      (recencyThenRank backupOrder) ++
    (placements.filter (fun p => !p.isPrimary)).insertionSort
      (recencyThenRank backupOrder)

/-! ## LogCompletenessVerifier (spec §4.2)

Modelled from the spec: `Recovery::verifyCompleteLog` is absent from `src/`
(only the disabled `RecoveryTest::verifyCompleteLog` test body is present).
Contract: the authoritative head is the digest with the greatest `segmentId`,
ties broken by greatest `segmentLength`; with no digest at all the verifier
fails with `NoUsableHead`; referenced segments with no located replica are
reported as missing without aborting verification. -/

/-- The preference order on digests: `digestLe a b` holds when `b` is at
least as authoritative as `a` (greater segmentId, or same segmentId and at
least as great a segmentLength). -/
def digestLe (a b : SegmentDigest) : Prop :=
  a.segmentId < b.segmentId ∨
    (a.segmentId = b.segmentId ∧ a.segmentLength ≤ b.segmentLength)

instance : DecidableRel digestLe := by
  intro a b
  unfold digestLe
  infer_instance

/-- The more authoritative of two digests: greater segmentId wins; on equal
segmentIds, greater segmentLength wins; on a full tie the first is kept. -/
def betterDigest (a b : SegmentDigest) : SegmentDigest :=
  if a.segmentId < b.segmentId then b
  else if b.segmentId < a.segmentId then a
  else if a.segmentLength < b.segmentLength then b
  else a

/-- Modelled from the spec: head selection among the supplied digests;
`none` exactly when no digest is available. -/
def chooseHead : List SegmentDigest → Option SegmentDigest
  | [] => none
  | d :: ds => some (ds.foldl betterDigest d)

/-- Result of log-completeness verification. -/
structure VerifyResult where
  headSegmentId : SegmentId
  headSegmentLength : Nat
  missingSegments : List SegmentId
deriving DecidableEq, Repr

/-- Modelled from the spec: `LogCompletenessVerifier.verify`.  Chooses the
authoritative head among `digests`, then diffs the head's referenced segment
ids against the segments actually located (`located`); missing segments are
reported in the result, they do not make verification fail. -/
def verify (digests : List SegmentDigest) (located : List SegmentId) :
    Except RecoveryError VerifyResult :=
  match chooseHead digests with
  | none => .error .NoUsableHead
  | some h =>
      .ok { headSegmentId := h.segmentId
            headSegmentLength := h.segmentLength
            missingSegments :=
              h.referencedSegmentIds.filter (fun s => !(located.contains s)) }

/-! ## PartitionPlanner (spec §4.3)

Modelled from the spec: the planner is absent from `src/` (only the
`RecoveryTest::start_notEnoughMasters` test exercising it is present).
Contract: group tablets by partition tag into `k` groups; fail with
`InsufficientRecoveryCapacity` unless at least `k` healthy nodes exist;
otherwise assign each partition to a distinct healthy node. -/

/-- Modelled from the spec: `PartitionPlanner.plan`.  The distinct partition
tags (in first-seen order is irrelevant to the contract; here in `dedup`
order) are paired with distinct healthy nodes. -/
def plan (tablets : List Tablet) (healthyNodes : List ServerId) :
    Except RecoveryError (List RecoveryPartition) :=
  if healthyNodes.dedup.length < ((tablets.map (fun t => t.partitionTag)).dedup).length
  then .error .InsufficientRecoveryCapacity
  else .ok (List.zipWith
      (fun tag n =>
        { partitionTag := tag
          node := n
          tablets := tablets.filter (fun t => t.partitionTag == tag) })
      ((tablets.map (fun t => t.partitionTag)).dedup) healthyNodes.dedup)

/-! ## RecoveryCoordinator (spec §4.4, §5, §6)

Modelled from the spec: `Recovery::start` and the coordinator state machine
are absent from `src/` (only `RecoveryTest::start` and
`RecoveryTest::start_notEnoughMasters` are present).  The machine's states
are Planning → Dispatching → Verifying → Complete | Failed.  Planning runs
the locator, verifier and planner against the snapshot taken at construction
time; any failure there transitions directly to Failed.  Dispatching issues
one fetch per (partition, segment) pair drawn from the ordered work list
(requests for the same (backup, segment) pair are reused across partitions,
so each segment is fetched from its first placement in the work list).
Network responses are modelled as immediately successful, which suffices for
the planning-failure and happy-path claims; transient unavailability and
retry timing are real-time/concurrency behavior outside the shallow
embedding. -/

/-- One "fetch recovery data" request, scoped to a partition's tablets. -/
structure FetchRequest where
  backup : ServerId
  segmentId : SegmentId
  partitionTag : Nat
deriving DecidableEq, Repr

/-- The coordinator's state-machine phases. -/
inductive RecPhase where
  | planning
  | dispatching
  | verifying
  | complete
  | failed (e : RecoveryError)
deriving DecidableEq, Repr

/-- The immutable snapshot a Recovery is constructed over: the crashed node,
its tablet ownership table, the discovered replica placements, the injected
random backup permutation, the digests found during discovery, and the
healthy nodes. -/
structure RecoveryInput where
  crashedId : ServerId
  tablets : List Tablet
  placements : List ReplicaPlacement
  backupOrder : List ServerId
  digests : List SegmentDigest
  healthyNodes : List ServerId
deriving DecidableEq, Repr

/-- The mutable state of one Recovery: its phase, the planning outputs, the
queue of fetches not yet issued, the log of fetches issued so far, and the
progress counter. -/
structure CoordState where
  input : RecoveryInput
  phase : RecPhase
  workList : List ReplicaPlacement
  partitions : List RecoveryPartition
  missingSegments : List SegmentId
  pending : List FetchRequest
  issued : List FetchRequest
  tabletsUnderRecovery : Nat
deriving DecidableEq, Repr

/-- The freshly constructed Recovery: in Planning, nothing issued yet. -/
def initState (inp : RecoveryInput) : CoordState :=
  { input := inp
    phase := .planning
    workList := []
    partitions := []
    missingSegments := []
    pending := []
    issued := []
    tabletsUnderRecovery := 0 }

/-- Keep only the first placement in the work list for each segmentId: the
request for a (backup, segment) pair is reused across partitions, and later
placements of the same segment are fallbacks, not separate fetches. -/
def dedupBySegment (work : List ReplicaPlacement) : List ReplicaPlacement :=
  work.foldl
    (fun acc p =>
      if acc.any (fun q => q.segmentId == p.segmentId) then acc
      else acc ++ [p])
    []

/-- The ordered fetch queue: for every partition, one fetch per segment,
against that segment's first placement in the ordered work list. -/
def buildFetches (partitions : List RecoveryPartition)
    (work : List ReplicaPlacement) : List FetchRequest :=
  partitions.flatMap
    (fun pr =>
      (dedupBySegment work).map
        (fun pl =>
          { backup := pl.backup
            segmentId := pl.segmentId
            partitionTag := pr.partitionTag }))

/-- Modelled from the spec: one step of the coordinator state machine.
Planning runs locate, verify and plan; a failure of either transitions
directly to Failed.  Dispatching issues the next pending fetch, crediting the
partition's tablets to the progress counter when its last fetch completes,
and moves to Verifying once nothing is pending.  Verifying completes if no
missing-segment gap is outstanding, else fails with IncompleteLog.  Terminal
states are fixed points. -/
def stepRecovery (s : CoordState) : CoordState :=
  match s.phase with
  | .planning =>
      let work := locate s.input.placements s.input.backupOrder
      match verify s.input.digests (work.map (fun p => p.segmentId)) with
      | .error e => { s with phase := .failed e }
      | .ok v =>
          match plan s.input.tablets s.input.healthyNodes with
          | .error e => { s with phase := .failed e }
          | .ok parts =>
              { s with phase := .dispatching
                       workList := work
                       partitions := parts
                       missingSegments := v.missingSegments
                       pending := buildFetches parts work }
  | .dispatching =>
      match s.pending with
      | [] => { s with phase := .verifying }
      | f :: rest =>
          let credit :=
            if rest.any (fun g => g.partitionTag == f.partitionTag) then 0
            else (s.input.tablets.filter
                (fun t => t.partitionTag == f.partitionTag)).length
          { s with pending := rest
                   issued := s.issued ++ [f]
                   tabletsUnderRecovery := s.tabletsUnderRecovery + credit }
  | .verifying =>
      if s.missingSegments.isEmpty then { s with phase := .complete }
      else { s with phase := .failed .IncompleteLog }
  | .complete => s
  | .failed _ => s

/-- Whether a phase is terminal (Complete or Failed). -/
def isTerminal : RecPhase → Bool
  | .complete => true
  | .failed _ => true
  | _ => false

/-- What `Progress(handle)` returns to the caller. -/
structure ProgressReport where
  tabletsUnderRecovery : Nat
  totalTablets : Nat
  state : RecPhase
deriving DecidableEq, Repr

/-- Modelled from the spec: `Progress(handle)` reads the recovery's progress
counter, total tablet count, and current state. -/
def progress (s : CoordState) : ProgressReport :=
  { tabletsUnderRecovery := s.tabletsUnderRecovery
    totalTablets := s.input.tablets.length
    state := s.phase }

/-! ## The keyed store used by masters (spec §1)

Modelled from the spec: the HashTable implementation is absent from `src/`;
only the benchmark harness calling it (`hashTableBenchmark`) is present.
The spec treats it as an opaque keyed store — `replace(key, ref)`,
`lookup(key) -> ref?` — backed by hashed buckets with internal chaining. -/

/-- A chained hash table: `nlines` buckets, each a chain of
(key, reference) entries; a key hashes to bucket `key % nlines`. -/
structure HashTable where
  nlines : Nat
  buckets : List (List (Nat × Nat))
deriving DecidableEq, Repr

/-- The bucket index a key hashes to. -/
def HashTable.hashOf (ht : HashTable) (key : Nat) : Nat :=
  key % ht.nlines

/-- Modelled from the spec: `replace(key, ref)` installs `ref` as the
reference for `key`, superseding any existing entry for that key in the
key's chain. -/
def HashTable.replace (ht : HashTable) (key ref : Nat) : HashTable :=
  match ht.buckets[ht.hashOf key]? with
  | none => ht
  | some chain =>
      let updated := ht.buckets.set (ht.hashOf key)
        ((key, ref) :: chain.filter (fun e => e.1 != key))
      { ht with buckets := updated }

/-- Modelled from the spec: `lookup(key)` walks the key's chain and returns
the stored reference, or `none` when the key is absent. -/
def HashTable.lookup (ht : HashTable) (key : Nat) : Option Nat :=
  match ht.buckets[ht.hashOf key]? with
  | none => none
  | some chain => (chain.find? (fun e => e.1 == key)).map (fun e => e.2)

/-- The end-to-end scenario of spec §8: crashed node 99 has closed segment
88 replicated on backups A = 1 (primary) and B... with the spec's replica
invariant (at most one primary per segment) the primary copy of 88 sits on
B = 2 and the copy on A is secondary; open segment 89 (digest referencing
{88, 89}) is replicated only on A; three tablets are tagged with partitions
0 and 1; healthy nodes 10 and 20 are available. -/
def scenarioInput : RecoveryInput :=
  { crashedId := 99
    tablets :=
      [ { tableId := 123, keyRangeStart := 0, keyRangeEnd := 9, partitionTag := 0 }
      , { tableId := 123, keyRangeStart := 20, keyRangeEnd := 29, partitionTag := 0 }
      , { tableId := 123, keyRangeStart := 10, keyRangeEnd := 19, partitionTag := 1 } ]
    placements :=
      [ { backup := 1, segmentId := 89, isPrimary := true }
      , { backup := 2, segmentId := 88, isPrimary := true }
      , { backup := 1, segmentId := 88, isPrimary := false } ]
    backupOrder := [2, 1, 3]
    digests :=
      [ { segmentId := 89, segmentLength := 64, referencedSegmentIds := [88, 89] } ]
    healthyNodes := [10, 20] }

/-! ## Theorems -/

/-- Totality of a lexicographic comparison on pairs of naturals. -/
theorem natLex_total (x y u v : Nat) :
    (y < x ∨ (x = y ∧ u ≤ v)) ∨ (x < y ∨ (y = x ∧ v ≤ u)) := by
  omega

/-- Transitivity of a lexicographic comparison on pairs of naturals. -/
theorem natLex_trans (x y z u v w : Nat)
    (h1 : y < x ∨ (x = y ∧ u ≤ v)) (h2 : z < y ∨ (y = z ∧ v ≤ w)) :
    z < x ∨ (x = z ∧ u ≤ w) := by
  omega

/-- The within-tier order is total. -/
theorem recencyThenRank_total (backupOrder : List ServerId) :
    ∀ a b, recencyThenRank backupOrder a b ∨ recencyThenRank backupOrder b a := by
  intro a b
  unfold recencyThenRank
  exact natLex_total a.segmentId b.segmentId
    (backupRank backupOrder a.backup) (backupRank backupOrder b.backup)

/-- The within-tier order is transitive. -/
theorem recencyThenRank_trans (backupOrder : List ServerId) :
    ∀ a b c, recencyThenRank backupOrder a b → recencyThenRank backupOrder b c →
      recencyThenRank backupOrder a c := by
  intro a b c hab hbc
  unfold recencyThenRank at *
  exact natLex_trans a.segmentId b.segmentId c.segmentId
    (backupRank backupOrder a.backup) (backupRank backupOrder b.backup)
    (backupRank backupOrder c.backup) hab hbc

/-- Every element of the sorted primary tier is primary-tagged. -/
theorem isPrimary_of_mem_sorted_filter (placements : List ReplicaPlacement)
    (backupOrder : List ServerId) (p : ReplicaPlacement)
    (h : p ∈ (placements.filter (fun q => q.isPrimary)).insertionSort
        (recencyThenRank backupOrder)) : p.isPrimary = true := by
  have hmem :=
    (List.perm_insertionSort (recencyThenRank backupOrder)
        (placements.filter (fun q => q.isPrimary))).mem_iff.mp h
  exact (List.mem_filter.mp hmem).2

/-- Every element of the sorted secondary tier is secondary-tagged. -/
theorem not_isPrimary_of_mem_sorted_filter (placements : List ReplicaPlacement)
    (backupOrder : List ServerId) (p : ReplicaPlacement)
    (h : p ∈ (placements.filter (fun q => !q.isPrimary)).insertionSort
        (recencyThenRank backupOrder)) : p.isPrimary = false := by
  have hmem :=
    (List.perm_insertionSort (recencyThenRank backupOrder)
        (placements.filter (fun q => !q.isPrimary))).mem_iff.mp h
  have := (List.mem_filter.mp hmem).2
  simpa using this

/-- C1: for every set of discovered ReplicaPlacements (and every injected
backup permutation), the ordered work list produced by `locate` places every
primary-tagged entry before every secondary-tagged entry: the index of any
secondary entry is strictly greater than the index of any primary entry,
regardless of segment recency. -/
theorem locate_primary_before_secondary
    (placements : List ReplicaPlacement) (backupOrder : List ServerId)
    (i j : Nat) (ps pp : ReplicaPlacement)
    (hi : (locate placements backupOrder)[i]? = some ps)
    (hj : (locate placements backupOrder)[j]? = some pp)
    (hps : ps.isPrimary = false) (hpp : pp.isPrimary = true) :
    j < i := by
  unfold locate at hi hj
  by_cases hjlt : j <
      ((placements.filter (fun q => q.isPrimary)).insertionSort
        (recencyThenRank backupOrder)).length
  · by_cases hilt : i <
        ((placements.filter (fun q => q.isPrimary)).insertionSort
          (recencyThenRank backupOrder)).length
    · rw [List.getElem?_append_left hilt] at hi
      have hmem : ps ∈ (placements.filter (fun q => q.isPrimary)).insertionSort
          (recencyThenRank backupOrder) := List.getElem?_mem hi
      have := isPrimary_of_mem_sorted_filter placements backupOrder ps hmem
      rw [hps] at this
      cases this
    · omega
  · rw [List.getElem?_append_right (Nat.le_of_not_lt hjlt)] at hj
    have hmem : pp ∈ (placements.filter (fun q => !q.isPrimary)).insertionSort
        (recencyThenRank backupOrder) := List.getElem?_mem hj
    have := not_isPrimary_of_mem_sorted_filter placements backupOrder pp hmem
    rw [hpp] at this
    cases this

/-- Witness for C1 at a concrete input: in the located list for one primary
and one secondary placement, the secondary sits at index 1, the primary at
index 0, and the theorem yields 0 < 1. -/
theorem locate_primary_before_secondary_witness :
    (locate [⟨1, 88, false⟩, ⟨1, 89, true⟩] [1])[1]? = some ⟨1, 88, false⟩ ∧
    (locate [⟨1, 88, false⟩, ⟨1, 89, true⟩] [1])[0]? = some ⟨1, 89, true⟩ ∧
    0 < 1 :=
  ⟨by decide, by decide,
    locate_primary_before_secondary [⟨1, 88, false⟩, ⟨1, 89, true⟩] [1]
      1 0 ⟨1, 88, false⟩ ⟨1, 89, true⟩ (by decide) (by decide) rfl rfl⟩

/-- C8: within each tier of the work list returned by `locate` — among the
primary entries and among the secondary entries — entries are sorted by the
recency-then-injected-rank order: higher segmentId (closer to the log head)
first, ties between backups broken by the injected backup permutation
(`backupOrder`), drawn once per Recovery.  `locate` is a pure function of
the placements and the injected permutation, so the full ordering is
deterministic for a fixed injected source. -/
theorem locate_tiers_sorted
    (placements : List ReplicaPlacement) (backupOrder : List ServerId) :
    ((locate placements backupOrder).filter (fun p => p.isPrimary)).Sorted
        (recencyThenRank backupOrder) ∧
    ((locate placements backupOrder).filter (fun p => !p.isPrimary)).Sorted
        (recencyThenRank backupOrder) := by
  haveI : IsTotal ReplicaPlacement (recencyThenRank backupOrder) :=
    ⟨recencyThenRank_total backupOrder⟩
  haveI : IsTrans ReplicaPlacement (recencyThenRank backupOrder) :=
    ⟨recencyThenRank_trans backupOrder⟩
  unfold locate
  rw [List.filter_append, List.filter_append]
  have hP : ((placements.filter (fun q => q.isPrimary)).insertionSort
      (recencyThenRank backupOrder)).filter (fun p => p.isPrimary) =
      (placements.filter (fun q => q.isPrimary)).insertionSort
        (recencyThenRank backupOrder) :=
    List.filter_eq_self.mpr
      (fun a ha => isPrimary_of_mem_sorted_filter placements backupOrder a ha)
  have hS : ((placements.filter (fun q => !q.isPrimary)).insertionSort
      (recencyThenRank backupOrder)).filter (fun p => !p.isPrimary) =
      (placements.filter (fun q => !q.isPrimary)).insertionSort
        (recencyThenRank backupOrder) :=
    List.filter_eq_self.mpr (fun a ha => by
      have := not_isPrimary_of_mem_sorted_filter placements backupOrder a ha
      simp [this])
  have hPS : ((placements.filter (fun q => !q.isPrimary)).insertionSort
      (recencyThenRank backupOrder)).filter (fun p => p.isPrimary) = [] := by
    rw [List.filter_eq_nil_iff]
    intro a ha
    have := not_isPrimary_of_mem_sorted_filter placements backupOrder a ha
    simp [this]
  have hSP : ((placements.filter (fun q => q.isPrimary)).insertionSort
      (recencyThenRank backupOrder)).filter (fun p => !p.isPrimary) = [] := by
    rw [List.filter_eq_nil_iff]
    intro a ha
    have := isPrimary_of_mem_sorted_filter placements backupOrder a ha
    simp [this]
  rw [hP, hS, hPS, hSP, List.append_nil, List.nil_append]
  exact ⟨List.sorted_insertionSort _ _, List.sorted_insertionSort _ _⟩

/-- Transitivity of the non-strict lexicographic comparison on pairs of
naturals. -/
theorem natLexLe_trans (x y z u v w : Nat)
    (h1 : x < y ∨ (x = y ∧ u ≤ v)) (h2 : y < z ∨ (y = z ∧ v ≤ w)) :
    x < z ∨ (x = z ∧ u ≤ w) := by
  omega

/-- The digest preference order is reflexive. -/
theorem digestLe_refl (a : SegmentDigest) : digestLe a a :=
  Or.inr ⟨rfl, Nat.le_refl _⟩

/-- The digest preference order is transitive. -/
theorem digestLe_trans (a b c : SegmentDigest)
    (h1 : digestLe a b) (h2 : digestLe b c) : digestLe a c :=
  natLexLe_trans a.segmentId b.segmentId c.segmentId
    a.segmentLength b.segmentLength c.segmentLength h1 h2

/-- `betterDigest` returns one of its two arguments. -/
theorem betterDigest_eq_or (a b : SegmentDigest) :
    betterDigest a b = a ∨ betterDigest a b = b := by
  unfold betterDigest
  split_ifs <;> simp

/-- The first argument is no more authoritative than `betterDigest a b`. -/
theorem digestLe_betterDigest_left (a b : SegmentDigest) :
    digestLe a (betterDigest a b) := by
  unfold betterDigest digestLe
  split_ifs with h1 h2 h3
  · exact Or.inl h1
  · exact Or.inr ⟨rfl, Nat.le_refl _⟩
  · exact Or.inr ⟨Nat.le_antisymm (Nat.le_of_not_lt h2) (Nat.le_of_not_lt h1),
      Nat.le_of_lt h3⟩
  · exact Or.inr ⟨rfl, Nat.le_refl _⟩

/-- The second argument is no more authoritative than `betterDigest a b`. -/
theorem digestLe_betterDigest_right (a b : SegmentDigest) :
    digestLe b (betterDigest a b) := by
  unfold betterDigest digestLe
  split_ifs with h1 h2 h3
  · exact Or.inr ⟨rfl, Nat.le_refl _⟩
  · exact Or.inl h2
  · exact Or.inr ⟨rfl, Nat.le_refl _⟩
  · exact Or.inr ⟨Nat.le_antisymm (Nat.le_of_not_lt h1) (Nat.le_of_not_lt h2),
      Nat.le_of_not_lt h3⟩

/-- Folding `betterDigest` over a list yields an element of the inputs that
every input is at most as authoritative as. -/
theorem foldl_betterDigest_spec :
    ∀ (ds : List SegmentDigest) (d : SegmentDigest),
      ds.foldl betterDigest d ∈ d :: ds ∧
      digestLe d (ds.foldl betterDigest d) ∧
      ∀ x ∈ ds, digestLe x (ds.foldl betterDigest d) := by
  intro ds
  induction ds with
  | nil =>
      intro d
      exact ⟨List.mem_cons_self _ _, digestLe_refl d, by simp⟩
  | cons e es ih =>
      intro d
      obtain ⟨hmem, hle, hall⟩ := ih (betterDigest d e)
      have hfold : (e :: es).foldl betterDigest d =
          es.foldl betterDigest (betterDigest d e) := rfl
      refine ⟨?_, ?_, ?_⟩
      · rw [hfold]
        rcases List.mem_cons.mp hmem with heq | hm
        · rcases betterDigest_eq_or d e with h1 | h1
          · rw [heq, h1]
            exact List.mem_cons_self _ _
          · rw [heq, h1]
            exact List.mem_cons.mpr (Or.inr (List.mem_cons_self _ _))
        · exact List.mem_cons.mpr (Or.inr (List.mem_cons.mpr (Or.inr hm)))
      · rw [hfold]
        exact digestLe_trans _ _ _ (digestLe_betterDigest_left d e) hle
      · rw [hfold]
        intro x hx
        rcases List.mem_cons.mp hx with heq | hm
        · subst heq
          exact digestLe_trans _ _ _ (digestLe_betterDigest_right d x) hle
        · exact hall x hm

/-- C2: for every non-empty list of digests, `verify` selects as
authoritative head a supplied digest that maximizes segmentId and, among
digests sharing that segmentId, maximizes segmentLength; and on the concrete
inputs of the claim, `{(90,64)}` yields head segment 90, adding `(90,65)`
makes the length-65 digest the head, and adding `(91,1)` makes segment 91
the head regardless of length. -/
theorem verify_head_selection :
    (∀ (digests : List SegmentDigest) (located : List SegmentId),
        digests ≠ [] →
        ∃ h, chooseHead digests = some h ∧ h ∈ digests ∧
          (∀ d ∈ digests, digestLe d h) ∧
          verify digests located =
            .ok { headSegmentId := h.segmentId
                  headSegmentLength := h.segmentLength
                  missingSegments := h.referencedSegmentIds.filter
                    (fun s => !(located.contains s)) }) ∧
    verify [⟨90, 64, []⟩] [] =
      .ok { headSegmentId := 90, headSegmentLength := 64, missingSegments := [] } ∧
    verify [⟨90, 64, []⟩, ⟨90, 65, []⟩] [] =
      .ok { headSegmentId := 90, headSegmentLength := 65, missingSegments := [] } ∧
    verify [⟨90, 64, []⟩, ⟨90, 65, []⟩, ⟨91, 1, []⟩] [] =
      .ok { headSegmentId := 91, headSegmentLength := 1, missingSegments := [] } := by
  refine ⟨?_, rfl, rfl, rfl⟩
  intro digests located hne
  obtain ⟨d, ds, rfl⟩ := List.exists_cons_of_ne_nil hne
  obtain ⟨hmem, hle, hall⟩ := foldl_betterDigest_spec ds d
  refine ⟨ds.foldl betterDigest d, rfl, hmem, ?_, rfl⟩
  intro x hx
  rcases List.mem_cons.mp hx with heq | hm
  · subst heq
    exact hle
  · exact hall x hm

/-- Witness for C2: the universal part applied to the concrete singleton
digest list of the claim. -/
theorem verify_head_selection_witness :
    ∃ h, chooseHead [⟨90, 64, []⟩] = some h ∧
      h ∈ [(⟨90, 64, []⟩ : SegmentDigest)] ∧
      (∀ d ∈ [(⟨90, 64, []⟩ : SegmentDigest)], digestLe d h) ∧
      verify [⟨90, 64, []⟩] [] =
        .ok { headSegmentId := h.segmentId
              headSegmentLength := h.segmentLength
              missingSegments := h.referencedSegmentIds.filter
                (fun s => !(([] : List SegmentId).contains s)) } :=
  verify_head_selection.1 [⟨90, 64, []⟩] [] (by decide)

/-- C4: `verify` applied to an empty collection of digests fails with
`NoUsableHead` rather than returning a result, whatever was located. -/
theorem verify_empty_digests_fails (located : List SegmentId) :
    verify [] located = .error .NoUsableHead := rfl

/-- C5: whenever a head digest is chosen, `verify` returns successfully, and
its `missingSegments` are exactly the segment ids referenced by the head that
have no located replica — missing segments do not make verification fail. -/
theorem verify_missing_not_fatal
    (digests : List SegmentDigest) (located : List SegmentId)
    (h : SegmentDigest) (hh : chooseHead digests = some h) :
    ∃ r, verify digests located = .ok r ∧
      ∀ s, s ∈ r.missingSegments ↔ (s ∈ h.referencedSegmentIds ∧ s ∉ located) := by
  unfold verify
  rw [hh]
  refine ⟨_, rfl, ?_⟩
  intro s
  simp [List.mem_filter]

/-- Witness for C5: a head referencing segments 88 and 89 with only 89
located still verifies successfully, reporting 88 as missing. -/
theorem verify_missing_not_fatal_witness :
    ∃ r, verify [⟨89, 64, [88, 89]⟩] [89] = .ok r ∧
      ∀ s, s ∈ r.missingSegments ↔
        (s ∈ (⟨89, 64, [88, 89]⟩ : SegmentDigest).referencedSegmentIds ∧
          s ∉ [89]) :=
  verify_missing_not_fatal [⟨89, 64, [88, 89]⟩] [89] ⟨89, 64, [88, 89]⟩ rfl

/-- Mapping a left-projection over a zip recovers the left list when it is
no longer than the right list. -/
theorem map_zipWith_fst {α β γ : Type} (f : α → β → γ) (g : γ → α)
    (hf : ∀ a b, g (f a b) = a) :
    ∀ (as : List α) (bs : List β), as.length ≤ bs.length →
      (List.zipWith f as bs).map g = as := by
  intro as
  induction as with
  | nil =>
      intro bs _
      rfl
  | cons a as ih =>
      intro bs hlen
      cases bs with
      | nil => simp at hlen
      | cons b bs =>
          simp only [List.zipWith, List.map, hf]
          rw [ih bs (by simpa using hlen)]

/-- Mapping a right-projection over a zip yields a prefix of the right
list. -/
theorem map_zipWith_snd {α β γ : Type} (f : α → β → γ) (g : γ → β)
    (hf : ∀ a b, g (f a b) = b) :
    ∀ (as : List α) (bs : List β),
      (List.zipWith f as bs).map g = bs.take as.length := by
  intro as
  induction as with
  | nil =>
      intro bs
      rfl
  | cons a as ih =>
      intro bs
      cases bs with
      | nil => rfl
      | cons b bs =>
          simp only [List.zipWith, List.map, hf, List.length_cons, List.take]
          rw [ih bs]

/-- C3: for every tablet set with `k` distinct partition tags and every set
of healthy nodes, `plan` fails with `InsufficientRecoveryCapacity` when
fewer than `k` distinct healthy nodes exist, and otherwise succeeds with a
partition-to-node assignment that is a bijection from the `k` partitions
onto a subset of the healthy nodes (every tag appears exactly once, assigned
nodes are pairwise distinct healthy nodes); in particular 3 distinct tags
with 2 healthy nodes fails and 2 tags with 2 nodes succeeds bijectively. -/
theorem plan_capacity_and_bijection :
    (∀ (tablets : List Tablet) (healthyNodes : List ServerId),
        (healthyNodes.dedup.length <
            ((tablets.map (fun t => t.partitionTag)).dedup).length →
          plan tablets healthyNodes = .error .InsufficientRecoveryCapacity) ∧
        (((tablets.map (fun t => t.partitionTag)).dedup).length ≤
            healthyNodes.dedup.length →
          ∃ parts, plan tablets healthyNodes = .ok parts ∧
            parts.map (fun p => p.partitionTag) =
              (tablets.map (fun t => t.partitionTag)).dedup ∧
            (parts.map (fun p => p.node)).Nodup ∧
            ∀ p ∈ parts, p.node ∈ healthyNodes)) ∧
    plan [⟨1, 0, 9, 0⟩, ⟨1, 10, 19, 1⟩, ⟨1, 20, 29, 2⟩] [10, 20] =
      .error .InsufficientRecoveryCapacity ∧
    (∃ parts, plan [⟨1, 0, 9, 0⟩, ⟨1, 10, 19, 1⟩] [10, 20] = .ok parts ∧
      parts.map (fun p => (p.partitionTag, p.node)) = [(0, 10), (1, 20)]) := by
  refine ⟨?_, rfl, ⟨_, rfl, by decide⟩⟩
  intro tablets healthyNodes
  constructor
  · intro hlt
    unfold plan
    rw [if_pos hlt]
  · intro hge
    unfold plan
    rw [if_neg (Nat.not_lt.mpr hge)]
    have hsnd := map_zipWith_snd
        (fun tag n =>
          ({ partitionTag := tag
             node := n
             tablets := tablets.filter (fun t => t.partitionTag == tag) } :
            RecoveryPartition))
        (fun p => p.node) (fun a b => rfl)
        ((tablets.map (fun t => t.partitionTag)).dedup) healthyNodes.dedup
    refine ⟨_, rfl, ?_, ?_, ?_⟩
    · exact map_zipWith_fst _ _ (fun a b => rfl) _ _ hge
    · rw [hsnd]
      exact List.Nodup.sublist (List.take_sublist _ _) (List.nodup_dedup _)
    · intro p hp
      have hmap := List.mem_map_of_mem (fun q : RecoveryPartition => q.node) hp
      rw [hsnd] at hmap
      exact List.mem_dedup.mp (List.take_subset _ _ hmap)

/-- Witness for C3: 3 distinct tags with 2 healthy nodes fails; 2 distinct
tags with the same 2 nodes succeeds with a bijective assignment. -/
theorem plan_capacity_and_bijection_witness :
    plan [⟨1, 0, 9, 0⟩, ⟨1, 10, 19, 1⟩, ⟨1, 20, 29, 2⟩] [10, 20] =
      .error .InsufficientRecoveryCapacity ∧
    (∃ parts, plan [⟨1, 0, 9, 0⟩, ⟨1, 10, 19, 1⟩] [10, 20] = .ok parts ∧
      parts.map (fun p => p.partitionTag) =
        (([⟨1, 0, 9, 0⟩, ⟨1, 10, 19, 1⟩] : List Tablet).map
          (fun t => t.partitionTag)).dedup ∧
      (parts.map (fun p => p.node)).Nodup ∧
      ∀ p ∈ parts, p.node ∈ [10, 20]) :=
  ⟨(plan_capacity_and_bijection.1
      [⟨1, 0, 9, 0⟩, ⟨1, 10, 19, 1⟩, ⟨1, 20, 29, 2⟩] [10, 20]).1 (by decide),
   (plan_capacity_and_bijection.1
      [⟨1, 0, 9, 0⟩, ⟨1, 10, 19, 1⟩] [10, 20]).2 (by decide)⟩

/-- Terminal states are fixed points of the coordinator step function. -/
theorem stepRecovery_terminal_fixed (s : CoordState)
    (h : isTerminal s.phase = true) : stepRecovery s = s := by
  obtain ⟨inp, ph, wl, parts, miss, pend, iss, tur⟩ := s
  cases ph with
  | planning => simp [isTerminal] at h
  | dispatching => simp [isTerminal] at h
  | verifying => simp [isTerminal] at h
  | complete => rfl
  | failed e => rfl

/-- C6: in every execution in which Planning fails — the verifier or the
planner returns an error — the Recovery transitions directly from Planning
to Failed, and no Dispatching fetch request is ever issued to any backup at
any later time. -/
theorem planning_failure_no_dispatch (inp : RecoveryInput)
    (hfail :
      (∃ e, verify inp.digests
          ((locate inp.placements inp.backupOrder).map (fun p => p.segmentId)) =
          .error e) ∨
      (∃ e, plan inp.tablets inp.healthyNodes = .error e)) :
    (∃ e, (stepRecovery (initState inp)).phase = .failed e) ∧
    ∀ n, (stepRecovery^[n] (initState inp)).issued = [] := by
  have hstep : ∃ e, stepRecovery (initState inp) =
      { initState inp with phase := .failed e } := by
    rcases hfail with ⟨e, he⟩ | ⟨e, he⟩
    · exact ⟨e, by simp [stepRecovery, initState, he]⟩
    · cases hv : verify inp.digests
          ((locate inp.placements inp.backupOrder).map (fun p => p.segmentId)) with
      | error e2 => exact ⟨e2, by simp [stepRecovery, initState, hv]⟩
      | ok v => exact ⟨e, by simp [stepRecovery, initState, hv, he]⟩
  obtain ⟨e, he⟩ := hstep
  constructor
  · exact ⟨e, by rw [he]⟩
  · intro n
    cases n with
    | zero => rfl
    | succ m =>
        rw [Function.iterate_succ_apply, he,
          Function.iterate_fixed
            (stepRecovery_terminal_fixed
              { initState inp with phase := .failed e } rfl) m]
        rfl

/-- Witness for C6: with no digest discovered at all, Planning fails and no
fetch is ever issued. -/
theorem planning_failure_no_dispatch_witness :
    (∃ e, (stepRecovery (initState ⟨99, [], [], [], [], []⟩)).phase =
      .failed e) ∧
    ∀ n, (stepRecovery^[n] (initState ⟨99, [], [], [], [], []⟩)).issued = [] :=
  planning_failure_no_dispatch ⟨99, [], [], [], [], []⟩
    (Or.inl ⟨.NoUsableHead, rfl⟩)

/-- C7: in the end-to-end scenario (crashed node 99; closed segment 88
replicated on backups 1 and 2 with its primary on backup 2; open segment 89,
whose digest references {88, 89}, replicated only on backup 1; three tablets
tagged with partitions 0 and 1; healthy nodes 10 and 20): Planning succeeds;
the work list has backup1/89 and backup2/88 as primaries before the
secondary; partitions 0 and 1 are assigned to distinct healthy nodes;
Dispatching fetches segment 89 from backup 1 and segment 88 from its primary
location (backup 2) for both partitions; and the final state is Complete
with tabletsUnderRecovery = 3. -/
theorem recovery_end_to_end_scenario :
    (stepRecovery^[7] (initState scenarioInput)).phase = .complete ∧
    (stepRecovery^[7] (initState scenarioInput)).tabletsUnderRecovery = 3 ∧
    (stepRecovery^[7] (initState scenarioInput)).workList =
      [⟨1, 89, true⟩, ⟨2, 88, true⟩, ⟨1, 88, false⟩] ∧
    (stepRecovery^[7] (initState scenarioInput)).partitions.map
        (fun p => (p.partitionTag, p.node)) = [(0, 10), (1, 20)] ∧
    (stepRecovery^[7] (initState scenarioInput)).issued =
      [⟨1, 89, 0⟩, ⟨2, 88, 0⟩, ⟨1, 89, 1⟩, ⟨2, 88, 1⟩] := by
  refine ⟨rfl, rfl, rfl, rfl, rfl⟩

/-- C9: once a Recovery has reached a terminal state (Complete or Failed),
every later call to Progress returns the same
{tabletsUnderRecovery, totalTablets, state} report — the state machine no
longer moves, so Progress after termination is idempotent. -/
theorem progress_idempotent_after_terminal (s : CoordState) (n : Nat)
    (h : isTerminal s.phase = true) :
    progress (stepRecovery^[n] s) = progress s := by
  rw [Function.iterate_fixed (stepRecovery_terminal_fixed s h) n]

/-- Witness for C9: a completed Recovery reports the same progress two steps
later. -/
theorem progress_idempotent_after_terminal_witness :
    progress (stepRecovery^[2]
      (⟨⟨0, [], [], [], [], []⟩, .complete, [], [], [], [], [], 0⟩ :
        CoordState)) =
    progress
      (⟨⟨0, [], [], [], [], []⟩, .complete, [], [], [], [], [], 0⟩ :
        CoordState) :=
  progress_idempotent_after_terminal
    ⟨⟨0, [], [], [], [], []⟩, .complete, [], [], [], [], [], 0⟩ 2 rfl

/-- A lookup immediately after a replace of the same key finds exactly the
stored reference (for a well-formed table: one chain per line, at least one
line). -/
theorem hashTable_lookup_after_replace :
    ∀ (ht : HashTable) (key ref : Nat),
      ht.buckets.length = ht.nlines → 0 < ht.nlines →
      (ht.replace key ref).lookup key = some ref := by
  rintro ⟨n, bs⟩ key ref hlen hpos
  simp only at hlen hpos
  have hlt : key % n < bs.length := by
    rw [hlen]
    exact Nat.mod_lt _ hpos
  have hget : bs[key % n]? = some (bs.get ⟨key % n, hlt⟩) :=
    List.getElem?_eq_getElem hlt
  unfold HashTable.replace HashTable.lookup HashTable.hashOf
  simp only
  rw [hget]
  simp only
  have hset : (bs.set (key % n)
      ((key, ref) ::
        (bs.get ⟨key % n, hlt⟩).filter (fun e => e.1 != key)))[key % n]? =
      some ((key, ref) ::
        (bs.get ⟨key % n, hlt⟩).filter (fun e => e.1 != key)) := by
    simp [List.getElem?_set_self, hlt]
  rw [hset]
  simp

/-- `replace` never changes the number of lines of the table. -/
theorem replace_nlines (ht : HashTable) (key ref : Nat) :
    (ht.replace key ref).nlines = ht.nlines := by
  unfold HashTable.replace
  split
  · rfl
  · rfl

/-- `replace` never changes the number of bucket chains of the table. -/
theorem replace_buckets_length (ht : HashTable) (key ref : Nat) :
    (ht.replace key ref).buckets.length = ht.buckets.length := by
  unfold HashTable.replace
  split
  · rfl
  · simp

/-- C10: for the keyed store used by masters, for every key and reference,
immediately after `replace(key, reference)` a `lookup(key)` succeeds and
yields exactly the stored reference; and calling `replace` again with the
same key and reference leaves the round-trip result unchanged. -/
theorem hashTable_replace_lookup_roundtrip (ht : HashTable) (key ref : Nat)
    (hlen : ht.buckets.length = ht.nlines) (hpos : 0 < ht.nlines) :
    (ht.replace key ref).lookup key = some ref ∧
    ((ht.replace key ref).replace key ref).lookup key = some ref := by
  refine ⟨hashTable_lookup_after_replace ht key ref hlen hpos, ?_⟩
  have h1 := replace_nlines ht key ref
  have h2 := replace_buckets_length ht key ref
  exact hashTable_lookup_after_replace _ key ref
    (h2.trans (hlen.trans h1.symm)) (by rw [h1]; exact hpos)

/-- Witness for C10: a two-line table with empty chains, key 5, reference 7. -/
theorem hashTable_replace_lookup_roundtrip_witness :
    ((⟨2, [[], []]⟩ : HashTable).replace 5 7).lookup 5 = some 7 ∧
    (((⟨2, [[], []]⟩ : HashTable).replace 5 7).replace 5 7).lookup 5 = some 7 :=
  hashTable_replace_lookup_roundtrip ⟨2, [[], []]⟩ 5 7 rfl (by decide)

end RAMCloud
